import Mathlib

/-!
Verification of the post-processing and equivalence-checking pipeline of
`scripts/convert_minilm_to_coreml.py` (the Reef-iOS model-conversion script).

The embedded fragment is the verification section of `main` (the per-sentence
loop): attention-masked mean pooling, ε-guarded L2 normalization, cosine
similarity, verdict classification, and the batch loop with its single
surrounding `try`/`except`.

Modelling choices:
* float arrays become functions `Fin n → ℝ` (vectors) and
  `Fin n → Fin d → ℝ` (token-embedding matrices);
* the integer attention mask becomes `Fin n → ℕ`, cast to ℝ where the code
  multiplies or sums it;
* `np.linalg.norm` becomes `Real.sqrt` of the sum of squares;
* python's `max(x, 1e-9)` becomes `max x eps` with `eps = 1e-9`;
* a candidate pipeline that may raise becomes `α → Option β`
  (`none` = an exception was raised);
* the one place where IEEE NaN semantics matter (classification of a NaN
  similarity) is modelled by `Flt`, reals extended with a `nan` element for
  which every ordered comparison is false, exactly as in IEEE 754.
-/

open Finset

/-- The ε guard used by the script in both `max(sum_mask, 1e-9)` and
`max(norm, 1e-9)`. -/
noncomputable def eps : ℝ := 1e-9

section Reducer

variable {n d : ℕ}

/-- `sum_embeddings = np.sum(last_hidden_state[0] * mask_expanded, axis=0)`:
per-dimension sum of token embeddings weighted by the attention mask. -/
noncomputable def sum_embeddings (E : Fin n → Fin d → ℝ) (m : Fin n → ℕ) : Fin d → ℝ :=
  fun j => ∑ i, E i j * (m i : ℝ)

/-- `sum_mask = np.sum(mask)`: total attention-mask weight, as a real. -/
noncomputable def sum_mask (m : Fin n → ℕ) : ℝ :=
  ∑ i, (m i : ℝ)

/-- `mean_embedding = sum_embeddings / max(sum_mask, 1e-9)`: masked mean
pooling with ε-guarded divisor. -/
noncomputable def mean_embedding (E : Fin n → Fin d → ℝ) (m : Fin n → ℕ) : Fin d → ℝ :=
  fun j => sum_embeddings E m j / max (sum_mask m) eps

/-- `np.linalg.norm(v)`: Euclidean norm, the square root of the sum of
squares. -/
noncomputable def l2norm (v : Fin d → ℝ) : ℝ :=
  Real.sqrt (∑ j, v j ^ 2)

/-- `coreml_emb = mean_embedding / max(norm, 1e-9)`: L2 normalization with
ε-guarded divisor. -/
noncomputable def l2normalize (v : Fin d → ℝ) : Fin d → ℝ :=
  fun j => v j / max (l2norm v) eps

/-- The Embedding Reducer: masked mean pooling followed by ε-guarded L2
normalization, as performed per sentence by the script. -/
noncomputable def reduce (E : Fin n → Fin d → ℝ) (m : Fin n → ℕ) : Fin d → ℝ :=
  l2normalize (mean_embedding E m)

/-- `np.dot(a, b)`. -/
noncomputable def dot (a b : Fin d → ℝ) : ℝ :=
  ∑ j, a j * b j

/-- The denominator of the script's cosine similarity:
`np.linalg.norm(st_embeddings[i]) * np.linalg.norm(coreml_emb)`.
Note the script applies no ε floor here. -/
noncomputable def cos_denom (a b : Fin d → ℝ) : ℝ :=
  l2norm a * l2norm b

/-- `cos_sim = np.dot(ref, cand) / (np.linalg.norm(ref) * np.linalg.norm(cand))`. -/
noncomputable def cos_sim (a b : Fin d → ℝ) : ℝ :=
  dot a b / cos_denom a b

end Reducer

/-- The four verdict values of the spec's data model; the script itself
produces only `OK`, `WARN` and `FAIL`
(`"OK" if cos_sim > 0.99 else ("WARN" if cos_sim > 0.95 else "FAIL")`). -/
inductive Verdict where
  | OK
  | WARN
  | FAIL
  | UNAVAILABLE
  deriving DecidableEq, Repr

open Classical in
/-- The script's verdict classification:
`"OK" if cos_sim > 0.99 else ("WARN" if cos_sim > 0.95 else "FAIL")`. -/
noncomputable def classify (sim : ℝ) : Verdict :=
  if sim > 0.99 then Verdict.OK
  else if sim > 0.95 then Verdict.WARN
  else Verdict.FAIL

/-- Floating-point values as seen by the classification expression: a real
number or NaN.  Only the ordered-comparison behaviour of NaN matters here. -/
inductive Flt where
  | nan : Flt
  | val : ℝ → Flt

/-- IEEE 754 `>` on `Flt`: any comparison involving NaN is false. -/
def fltGt : Flt → Flt → Prop
  | Flt.val a, Flt.val b => a > b
  | _, _ => False

open Classical in
/-- The script's classification expression evaluated with IEEE comparison
semantics, so that a NaN similarity can be classified. -/
noncomputable def classifyF (x : Flt) : Verdict :=
  if fltGt x (Flt.val 0.99) then Verdict.OK
  else if fltGt x (Flt.val 0.95) then Verdict.WARN
  else Verdict.FAIL

section Batch

variable {α β : Type}

/-- The script's verification loop: `try: for sent in test_sentences: ...`
with a single `except` around the whole loop.  `pipeline` is the per-sentence
candidate computation (`none` models a raised exception), `proc` the rest of
the per-sentence processing down to the printed verdict.  An exception
terminates the loop: the remaining sentences receive no verdict. -/
def verifyBatch (pipeline : α → Option β) (proc : β → Verdict) :
    List α → List Verdict
  | [] => []
  | s :: rest =>
    match pipeline s with
    | none => []
    | some b => proc b :: verifyBatch pipeline proc rest

/-- Concrete pipeline for the batch counterexample: raises exactly on
sentence `1`. -/
def expipe : ℕ → Option ℕ :=
  fun s => if s = 1 then none else some s

/-- Concrete per-sentence processing for the batch counterexample. -/
def exproc : ℕ → Verdict :=
  fun _ => Verdict.OK

end Batch

/-! ### Shared lemmas -/

theorem eps_pos : 0 < eps := by norm_num [eps]

theorem l2norm_nonneg {d : ℕ} (v : Fin d → ℝ) : 0 ≤ l2norm v :=
  Real.sqrt_nonneg _

theorem verifyBatch_length_le {α β : Type} (p : α → Option β) (f : β → Verdict)
    (xs : List α) : (verifyBatch p f xs).length ≤ xs.length := by
  induction xs with
  | nil => simp [verifyBatch]
  | cons a rest ih =>
    cases hp : p a with
    | none => simp [verifyBatch, hp]
    | some b =>
      simpa [verifyBatch, hp, Nat.succ_le_succ_iff] using ih

theorem verifyBatch_no_unavailable {α β : Type} (p : α → Option β)
    (f : β → Verdict) (hf : ∀ b, f b ≠ Verdict.UNAVAILABLE) (xs : List α) :
    Verdict.UNAVAILABLE ∉ verifyBatch p f xs := by
  induction xs with
  | nil => simp [verifyBatch]
  | cons a rest ih =>
    cases hp : p a with
    | none => simp [verifyBatch, hp]
    | some b =>
      simp only [verifyBatch, hp, List.mem_cons, not_or]
      exact ⟨fun hc => hf b hc.symm, ih⟩

theorem verifyBatch_append_fail {α β : Type} (p : α → Option β) (f : β → Verdict)
    (pre post : List α) (s : α) (h : p s = none) :
    verifyBatch p f (pre ++ s :: post) = verifyBatch p f pre := by
  induction pre with
  | nil => simp [verifyBatch, h]
  | cons a rest ih =>
    cases hp : p a with
    | none => simp [verifyBatch, hp]
    | some b => simp [verifyBatch, hp, ih]

/-! ### C1 -/

/-- C1 counterexample: on the three-sentence batch `[0, 1, 2]` whose candidate
pipeline raises exactly on sentence `1`, the verification loop produces a
single verdict, not three, and no sentence is marked `UNAVAILABLE` — refuting
the claim that a per-sentence failure never aborts the batch and that the
verifier yields one verdict per sentence. -/
theorem c1_counterexample :
    verifyBatch expipe exproc [0, 1, 2] = [Verdict.OK] ∧
      (verifyBatch expipe exproc [0, 1, 2]).length ≠ 3 := by
  constructor
  · rfl
  · decide

/-- C1 (amended): the script wraps the whole verification loop in a single
`try`/`except`, so a candidate-pipeline exception for one sentence aborts
verification of that sentence and of every later sentence: the batch output
equals the output for the prefix before the first failing sentence, at most
one verdict per preceding sentence is produced, and no `UNAVAILABLE` verdict
is ever issued (the per-sentence processing only produces OK/WARN/FAIL). -/
theorem c1_exception_aborts_batch {α β : Type} (p : α → Option β)
    (f : β → Verdict) (pre post : List α) (s : α) (h : p s = none)
    (hf : ∀ b, f b ≠ Verdict.UNAVAILABLE) :
    verifyBatch p f (pre ++ s :: post) = verifyBatch p f pre ∧
      (verifyBatch p f (pre ++ s :: post)).length ≤ pre.length ∧
      Verdict.UNAVAILABLE ∉ verifyBatch p f (pre ++ s :: post) := by
  refine ⟨verifyBatch_append_fail p f pre post s h, ?_, ?_⟩
  · rw [verifyBatch_append_fail p f pre post s h]
    exact verifyBatch_length_le p f pre
  · exact verifyBatch_no_unavailable p f hf _

/-- C1 witness: the amended statement at the concrete batch `[0] ++ 1 :: [2]`
with the pipeline that raises on sentence `1`. -/
theorem c1_exception_aborts_batch_witness :
    expipe 1 = none ∧
      (verifyBatch expipe exproc ([0] ++ 1 :: [2]) = verifyBatch expipe exproc [0] ∧
        (verifyBatch expipe exproc ([0] ++ 1 :: [2])).length ≤ 1 ∧
        Verdict.UNAVAILABLE ∉ verifyBatch expipe exproc ([0] ++ 1 :: [2])) :=
  ⟨rfl, c1_exception_aborts_batch expipe exproc [0] [2] 1 rfl
    (fun b hc => by simp [exproc] at hc)⟩

/-! ### C3 -/

/-- C3: the verdict classification partitions similarity values by the fixed
thresholds: `classify sim = OK` exactly when `sim > 0.99`, `WARN` exactly when
`0.95 < sim ≤ 0.99`, and `FAIL` exactly when `sim ≤ 0.95`.  The three
characterising conditions are mutually exclusive and cover every real `sim`
(in particular every `sim ∈ [-1, 1]`), so each similarity receives exactly
one of {OK, WARN, FAIL}. -/
theorem c3_classification_partition (sim : ℝ) :
    (classify sim = Verdict.OK ↔ 0.99 < sim) ∧
      (classify sim = Verdict.WARN ↔ 0.95 < sim ∧ sim ≤ 0.99) ∧
      (classify sim = Verdict.FAIL ↔ sim ≤ 0.95) := by
  unfold classify
  split_ifs with h1 h2
  · refine ⟨⟨fun _ => h1, fun _ => rfl⟩, ?_, ?_⟩
    · exact ⟨fun hc => absurd hc (by decide), fun hc => absurd h1 (not_lt.mpr hc.2)⟩
    · exact ⟨fun hc => absurd hc (by decide), fun hc => absurd h1 (not_lt.mpr (by linarith))⟩
  · refine ⟨?_, ?_, ?_⟩
    · exact ⟨fun hc => absurd hc (by decide), fun hc => absurd hc h1⟩
    · exact ⟨fun _ => ⟨h2, not_lt.mp h1⟩, fun _ => rfl⟩
    · exact ⟨fun hc => absurd hc (by decide), fun hc => absurd h2 (not_lt.mpr hc)⟩
  · refine ⟨?_, ?_, ?_⟩
    · exact ⟨fun hc => absurd hc (by decide), fun hc => absurd hc h1⟩
    · exact ⟨fun hc => absurd hc (by decide), fun hc => absurd hc.1 h2⟩
    · exact ⟨fun _ => not_lt.mp h2, fun _ => rfl⟩

/-! ### C10 -/

/-- C10: the classification expression is total over all real similarity
inputs, not only `[-1, 1]`: every value above `0.99` (including values above
`1`) is classified `OK`, and a NaN similarity — for which both threshold
comparisons are false under IEEE semantics — is classified `FAIL`; the
expression never fails to produce a verdict. -/
theorem c10_total_above_one_and_nan (q : ℝ) (h : q > 0.99) :
    classifyF (Flt.val q) = Verdict.OK ∧ classifyF Flt.nan = Verdict.FAIL := by
  constructor
  · unfold classifyF
    rw [if_pos]
    exact h
  · unfold classifyF
    rw [if_neg, if_neg]
    · exact fun hc => hc.elim
    · exact fun hc => hc.elim

/-- C10 witness: the similarity value `2`, above `1`, is classified `OK`,
and NaN is classified `FAIL`. -/
theorem c10_total_above_one_and_nan_witness :
    (2 : ℝ) > 0.99 ∧
      (classifyF (Flt.val 2) = Verdict.OK ∧ classifyF Flt.nan = Verdict.FAIL) :=
  ⟨by norm_num, c10_total_above_one_and_nan 2 (by norm_num)⟩

/-! ### C8 -/

/-- C8: the cosine-similarity function the script uses is symmetric:
`cos_sim a b = cos_sim b a` for every pair of vectors. -/
theorem c8_cos_sim_symm {d : ℕ} (a b : Fin d → ℝ) : cos_sim a b = cos_sim b a := by
  unfold cos_sim cos_denom dot
  rw [mul_comm (l2norm a) (l2norm b)]
  congr 1
  exact Finset.sum_congr rfl fun j _ => mul_comm _ _

/-! ### C5 -/

/-- C5: for the all-zero attention mask and any token-embedding matrix, the
Reducer's output is exactly the zero vector, and both ε-guarded divisors are
strictly positive, so each division is a well-defined real division (no NaN
or Inf arises). -/
theorem c5_zero_mask_gives_zero_vector {n d : ℕ} (E : Fin n → Fin d → ℝ) :
    reduce E (fun _ => 0) = (fun _ => 0) ∧
      0 < max (sum_mask (fun _ : Fin n => 0)) eps ∧
      0 < max (l2norm (mean_embedding E (fun _ => 0))) eps := by
  refine ⟨?_, lt_of_lt_of_le eps_pos (le_max_right _ _),
    lt_of_lt_of_le eps_pos (le_max_right _ _)⟩
  funext j
  simp [reduce, l2normalize, mean_embedding, sum_embeddings]

/-! ### C2 -/

/-- Modelled from the spec: the denominator the spec prescribes for the
cosine similarity, `max(‖ref‖₂, ε) * max(‖cand‖₂, ε)`, with both norms
floored at ε.  Used only to compare against the script's actual
denominator `cos_denom`. -/
noncomputable def cos_denom_spec {d : ℕ} (a b : Fin d → ℝ) : ℝ :=
  max (l2norm a) eps * max (l2norm b) eps

theorem l2norm_eq_zero_iff {d : ℕ} (v : Fin d → ℝ) :
    l2norm v = 0 ↔ v = fun _ => 0 := by
  unfold l2norm
  rw [Real.sqrt_eq_zero (by positivity)]
  constructor
  · intro h
    funext j
    have hj := (Finset.sum_eq_zero_iff_of_nonneg
      (fun i _ => sq_nonneg (v i))).mp h j (Finset.mem_univ j)
    exact (pow_eq_zero_iff two_ne_zero).mp hj
  · intro h
    rw [h]
    simp

/-- C2 counterexample: for reference vector `[1, 0]` and the zero candidate
vector `[0, 0]`, the denominator the script actually computes,
`‖ref‖₂ · ‖cand‖₂` with no ε floor, is exactly `0` — the division is not
guarded — while the spec's ε-floored denominator would be positive. -/
theorem c2_counterexample :
    cos_denom ![(1 : ℝ), 0] ![(0 : ℝ), 0] = 0 ∧
      0 < cos_denom_spec ![(1 : ℝ), 0] ![(0 : ℝ), 0] := by
  constructor
  · have hz : l2norm ![(0 : ℝ), 0] = 0 := by
      rw [l2norm_eq_zero_iff]
      funext j
      fin_cases j <;> rfl
    unfold cos_denom
    rw [hz, mul_zero]
  · unfold cos_denom_spec
    have h1 : 0 < max (l2norm ![(1 : ℝ), 0]) eps :=
      lt_of_lt_of_le eps_pos (le_max_right _ _)
    have h2 : 0 < max (l2norm ![(0 : ℝ), 0]) eps :=
      lt_of_lt_of_le eps_pos (le_max_right _ _)
    exact mul_pos h1 h2

/-- C2 (amended): the script applies no ε floor in the cosine-similarity
denominator: it computes `‖ref‖₂ · ‖cand‖₂` directly, which is zero exactly
when one of the two vectors is the zero vector — in particular a zero
candidate embedding (the Reducer's output for an all-zero mask) makes the
denominator zero, so the division there is unguarded.  The ε guards exist
only inside the Reducer. -/
theorem c2_unfloored_denominator {d : ℕ} (a b : Fin d → ℝ) :
    cos_denom a b = 0 ↔ (a = fun _ => 0) ∨ (b = fun _ => 0) := by
  unfold cos_denom
  rw [mul_eq_zero, l2norm_eq_zero_iff, l2norm_eq_zero_iff]

/-! ### C6 -/

/-- C6: the Reducer's output does not depend on embedding values at masked
positions: if two token-embedding matrices agree on every row whose mask
entry is nonzero, the Reducer produces identical outputs, whatever the
matrices hold at mask-0 positions. -/
theorem c6_masked_positions_irrelevant {n d : ℕ} (E F : Fin n → Fin d → ℝ)
    (m : Fin n → ℕ) (h : ∀ i, m i ≠ 0 → E i = F i) :
    reduce E m = reduce F m := by
  have hs : sum_embeddings E m = sum_embeddings F m := by
    funext j
    refine Finset.sum_congr rfl fun i _ => ?_
    by_cases hm : m i = 0
    · simp [hm]
    · rw [h i hm]
  unfold reduce mean_embedding
  rw [hs]

/-- C6 witness: with mask `[1, 0]`, the matrices `[[1,2],[99,99]]` and
`[[1,2],[5,7]]` agree at the single unmasked position and differ at the
masked one, and the Reducer maps them to the same output. -/
theorem c6_masked_positions_irrelevant_witness :
    (∀ i, (![1, 0] : Fin 2 → ℕ) i ≠ 0 →
        (![![1, 2], ![99, 99]] : Fin 2 → Fin 2 → ℝ) i = ![![1, 2], ![5, 7]] i) ∧
      reduce (![![1, 2], ![99, 99]] : Fin 2 → Fin 2 → ℝ) ![1, 0] =
        reduce (![![1, 2], ![5, 7]] : Fin 2 → Fin 2 → ℝ) ![1, 0] := by
  have hh : ∀ i, (![1, 0] : Fin 2 → ℕ) i ≠ 0 →
      (![![1, 2], ![99, 99]] : Fin 2 → Fin 2 → ℝ) i = ![![1, 2], ![5, 7]] i := by
    intro i hi
    fin_cases i
    · rfl
    · simp at hi
  exact ⟨hh, c6_masked_positions_irrelevant _ _ _ hh⟩

/-! ### C9 -/

theorem sum_mask_eq_card {n : ℕ} (m : Fin n → ℕ) (hbin : ∀ i, m i ≤ 1) :
    sum_mask m = ((Finset.univ.filter fun i => m i = 1).card : ℝ) := by
  unfold sum_mask
  rw [Finset.card_filter]
  push_cast
  refine Finset.sum_congr rfl fun i _ => ?_
  rcases Nat.le_one_iff_eq_zero_or_eq_one.mp (hbin i) with h | h <;> simp [h]

/-- C9: for a binary mask with at least one set bit, the mask sum is at
least 1, so the ε floor in the pooling divisor `max(sum_mask, 1e-9)` is
inert, and the pooled vector is exactly the arithmetic mean of the embedding
rows at mask-1 positions. -/
theorem c9_pooling_floor_inert {n d : ℕ} (E : Fin n → Fin d → ℝ)
    (m : Fin n → ℕ) (hbin : ∀ i, m i ≤ 1) (hset : ∃ i, m i ≠ 0) :
    1 ≤ sum_mask m ∧
      max (sum_mask m) eps = sum_mask m ∧
      mean_embedding E m = fun j =>
        (∑ i ∈ Finset.univ.filter fun i => m i = 1, E i j) /
          ((Finset.univ.filter fun i => m i = 1).card : ℝ) := by
  have hcard := sum_mask_eq_card m hbin
  obtain ⟨i0, hi0⟩ := hset
  have hi0' : m i0 = 1 := by
    rcases Nat.le_one_iff_eq_zero_or_eq_one.mp (hbin i0) with h | h
    · exact absurd h hi0
    · exact h
  have hone : 1 ≤ sum_mask m := by
    rw [hcard]
    have : 0 < (Finset.univ.filter fun i => m i = 1).card :=
      Finset.card_pos.mpr ⟨i0, Finset.mem_filter.mpr ⟨Finset.mem_univ i0, hi0'⟩⟩
    exact_mod_cast this
  refine ⟨hone, max_eq_left (le_trans (by norm_num [eps]) hone), ?_⟩
  funext j
  unfold mean_embedding
  rw [max_eq_left (le_trans (by norm_num [eps]) hone), hcard]
  congr 1
  unfold sum_embeddings
  rw [Finset.sum_filter]
  refine Finset.sum_congr rfl fun i _ => ?_
  rcases Nat.le_one_iff_eq_zero_or_eq_one.mp (hbin i) with h | h <;> simp [h]

/-- C9 witness: the mask `[1, 0, 1]` with matrix `[[1,2],[99,99],[3,4]]`:
the floor is inert and pooling averages rows 0 and 2. -/
theorem c9_pooling_floor_inert_witness :
    (∀ i, (![1, 0, 1] : Fin 3 → ℕ) i ≤ 1) ∧
      (∃ i, (![1, 0, 1] : Fin 3 → ℕ) i ≠ 0) ∧
      (1 ≤ sum_mask (![1, 0, 1] : Fin 3 → ℕ) ∧
        max (sum_mask (![1, 0, 1] : Fin 3 → ℕ)) eps = sum_mask (![1, 0, 1] : Fin 3 → ℕ) ∧
        mean_embedding (![![1, 2], ![99, 99], ![3, 4]] : Fin 3 → Fin 2 → ℝ)
            (![1, 0, 1] : Fin 3 → ℕ) = fun j =>
          (∑ i ∈ Finset.univ.filter fun i => (![1, 0, 1] : Fin 3 → ℕ) i = 1,
              (![![1, 2], ![99, 99], ![3, 4]] : Fin 3 → Fin 2 → ℝ) i j) /
            ((Finset.univ.filter fun i => (![1, 0, 1] : Fin 3 → ℕ) i = 1).card : ℝ)) := by
  have hbin : ∀ i, (![1, 0, 1] : Fin 3 → ℕ) i ≤ 1 := by decide
  have hset : ∃ i, (![1, 0, 1] : Fin 3 → ℕ) i ≠ 0 := ⟨0, by decide⟩
  exact ⟨hbin, hset, c9_pooling_floor_inert _ _ hbin hset⟩

/-! ### C4 -/

theorem l2norm_div_self {d : ℕ} (v : Fin d → ℝ) (h : 0 < l2norm v) :
    l2norm (fun j => v j / l2norm v) = 1 := by
  have hsq : (l2norm v) ^ 2 = ∑ j, v j ^ 2 := Real.sq_sqrt (by positivity)
  have hsum : ∑ j, (v j / l2norm v) ^ 2 = 1 := by
    have h2 : ∑ j, (v j / l2norm v) ^ 2 = (∑ j, v j ^ 2) / (l2norm v) ^ 2 := by
      simp only [div_pow]
      rw [← Finset.sum_div]
    rw [h2, ← hsq, div_self (pow_ne_zero 2 (ne_of_gt h))]
  calc l2norm (fun j => v j / l2norm v)
      = Real.sqrt (∑ j, (v j / l2norm v) ^ 2) := rfl
    _ = 1 := by rw [hsum, Real.sqrt_one]

/-- C4 counterexample: the mask `[1, 1]` has set bits, yet on the matrix
`[[1,0],[-1,0]]` the rows cancel: the pooled vector is zero, the Reducer
outputs the zero vector, and its L2 norm `0` is not within ε of `1`.  The
claim fails for inputs whose pooled vector has norm below ε. -/
theorem c4_counterexample :
    (∃ i, (![1, 1] : Fin 2 → ℕ) i ≠ 0) ∧
      ¬ |l2norm (reduce (![![1, 0], ![-1, 0]] : Fin 2 → Fin 2 → ℝ) ![1, 1]) - 1| ≤ eps := by
  have hmean : mean_embedding (![![1, 0], ![-1, 0]] : Fin 2 → Fin 2 → ℝ) ![1, 1] =
      fun _ => 0 := by
    funext j
    unfold mean_embedding
    rw [div_eq_zero_iff]
    left
    fin_cases j <;>
      simp [sum_embeddings, Fin.sum_univ_two]
  have hred : reduce (![![1, 0], ![-1, 0]] : Fin 2 → Fin 2 → ℝ) ![1, 1] = fun _ => 0 := by
    funext j
    unfold reduce l2normalize
    rw [hmean]
    simp
  refine ⟨⟨0, by decide⟩, ?_⟩
  rw [hred]
  have h0 : l2norm (fun _ : Fin 2 => (0 : ℝ)) = 0 := by
    rw [l2norm_eq_zero_iff]
  rw [h0]
  norm_num [eps]

/-- C4 (amended): for every TokenEmbeddingMatrix/mask pair whose pooled
vector has L2 norm at least ε (which a set mask bit alone does not
guarantee — rows at unmasked positions can cancel), the Reducer's output
has L2 norm exactly 1, hence within ε of 1. -/
theorem c4_unit_norm_output {n d : ℕ} (E : Fin n → Fin d → ℝ) (m : Fin n → ℕ)
    (h : eps ≤ l2norm (mean_embedding E m)) :
    l2norm (reduce E m) = 1 ∧ |l2norm (reduce E m) - 1| ≤ eps := by
  have hpos : 0 < l2norm (mean_embedding E m) := lt_of_lt_of_le eps_pos h
  have hred : reduce E m =
      fun j => mean_embedding E m j / l2norm (mean_embedding E m) := by
    funext j
    unfold reduce l2normalize
    rw [max_eq_left h]
  have hone : l2norm (reduce E m) = 1 := by
    rw [hred]
    exact l2norm_div_self _ hpos
  refine ⟨hone, ?_⟩
  rw [hone]
  simp [le_of_lt eps_pos]

/-! ### Scenario 1 data (shared by C4's witness and C7) -/

/-- Scenario 1 token embeddings: `[[2,0],[0,2],[99,99],[99,99]]`. -/
noncomputable def Escn1 : Fin 4 → Fin 2 → ℝ :=
  ![![2, 0], ![0, 2], ![99, 99], ![99, 99]]

/-- Scenario 1 attention mask: `[1,1,0,0]`. -/
def mscn1 : Fin 4 → ℕ :=
  ![1, 1, 0, 0]

theorem mean_scn1 : mean_embedding Escn1 mscn1 = ![(1 : ℝ), 1] := by
  funext j
  unfold mean_embedding
  have hsm : sum_mask mscn1 = 2 := by
    norm_num [sum_mask, mscn1, Fin.sum_univ_four]
  rw [hsm, max_eq_left (by norm_num [eps])]
  fin_cases j <;> norm_num [sum_embeddings, Escn1, mscn1, Fin.sum_univ_four]

theorem l2norm_one_one : l2norm ![(1 : ℝ), 1] = Real.sqrt 2 := by
  unfold l2norm
  congr 1
  norm_num [Fin.sum_univ_two]

theorem one_le_sqrt_two : (1 : ℝ) ≤ Real.sqrt 2 := by
  rw [show (1 : ℝ) = Real.sqrt 1 from (Real.sqrt_one).symm]
  exact Real.sqrt_le_sqrt (by norm_num)

/-- C4 witness: the amended statement at Scenario 1's inputs, whose pooled
vector `[1,1]` has norm `√2 ≥ ε`. -/
theorem c4_unit_norm_output_witness :
    eps ≤ l2norm (mean_embedding Escn1 mscn1) ∧
      (l2norm (reduce Escn1 mscn1) = 1 ∧
        |l2norm (reduce Escn1 mscn1) - 1| ≤ eps) := by
  have h : eps ≤ l2norm (mean_embedding Escn1 mscn1) := by
    rw [mean_scn1, l2norm_one_one]
    exact le_trans (by norm_num [eps]) one_le_sqrt_two
  exact ⟨h, c4_unit_norm_output Escn1 mscn1 h⟩

/-! ### C7 -/

theorem sqrt_two_mul_self : Real.sqrt 2 * Real.sqrt 2 = 2 :=
  Real.mul_self_sqrt (by norm_num)

theorem sqrt_two_pos : 0 < Real.sqrt 2 :=
  Real.sqrt_pos.mpr (by norm_num)

/-- C7: on Scenario 1 (sequence length 4, mask `[1,1,0,0]`, embeddings
`[[2,0],[0,2],[99,99],[99,99]]`), the pooling step yields exactly `[1, 1]`
and the normalization step yields exactly `[1,1]/√2`, whose components agree
with the quoted `0.7071` to four decimal places. -/
theorem c7_scenario1 :
    mean_embedding Escn1 mscn1 = ![(1 : ℝ), 1] ∧
      reduce Escn1 mscn1 = ![(Real.sqrt 2)⁻¹, (Real.sqrt 2)⁻¹] ∧
      |(Real.sqrt 2)⁻¹ - 0.7071| < 1e-4 := by
  have hmax : max (Real.sqrt 2) eps = Real.sqrt 2 :=
    max_eq_left (le_trans (by norm_num [eps]) one_le_sqrt_two)
  refine ⟨mean_scn1, ?_, ?_⟩
  · funext j
    unfold reduce l2normalize
    rw [mean_scn1, l2norm_one_one, hmax]
    fin_cases j <;> simp [one_div]
  · have hinv : (Real.sqrt 2)⁻¹ = Real.sqrt 2 / 2 := by
      rw [eq_div_iff (by norm_num : (2 : ℝ) ≠ 0), inv_mul_eq_div,
        div_eq_iff (ne_of_gt sqrt_two_pos)]
      exact sqrt_two_mul_self.symm
    have hub : Real.sqrt 2 < 1.4144 := by
      nlinarith [sqrt_two_mul_self, sqrt_two_pos]
    have hlb : (1.4140 : ℝ) < Real.sqrt 2 := by
      nlinarith [sqrt_two_mul_self, sqrt_two_pos]
    rw [hinv, abs_lt]
    constructor <;> linarith
